import Mathlib

/-!
Verification of the composite-HOD-model factory (`hod_factory.py`) and the
subhalo mock-population pipeline (`subhalo_mock_factory.py`) of the
halotools repository, against its natural-language specification.

Tables (`astropy.table.Table`) are shallowly embedded as ordered association
lists of named columns; all column values are integers (the numeric content
of a column is irrelevant to every property proved here).  Python exceptions
are embedded as an explicit error type threaded through `Except`.
-/

/-- An astropy `Table`: an ordered list of named columns.  Column order is the
insertion order; a lookup returns the first column with the given name. -/
abbrev Table := List (String × List Int)

/-- Column lookup, `table[key]` on the read side (`None` embeds `KeyError`). -/
def getCol : Table → String → Option (List Int)
  | [], _ => none
  | c :: cs, k => if c.1 = k then some c.2 else getCol cs k

/-- Column assignment `table[key] = arr`: replace the column in place when the
name already exists, otherwise append a new column at the end. -/
def setCol : Table → String → List Int → Table
  | [], k, v => [(k, v)]
  | c :: cs, k, v => if c.1 = k then (k, v) :: cs else c :: setCol cs k v

/-- `len(table)` for an astropy table: the common length of its columns
(0 for a table with no columns).  All tables built by the pipeline keep
every column at the same length, which `WFcols` captures. -/
def nRows (t : Table) : Nat :=
  match t with
  | [] => 0
  | c :: _ => c.2.length

/-- Every column of `t` has length `n` (astropy's row-consistency invariant). -/
def WFcols (t : Table) (n : Nat) : Prop := ∀ c ∈ t, c.2.length = n

instance (t : Table) (n : Nat) : Decidable (WFcols t n) :=
  inferInstanceAs (Decidable (∀ c ∈ t, c.2.length = n))

/-- Boolean-mask row selection applied to a single column. -/
def applyMask : List Bool → List Int → List Int
  | b :: bs, v :: vs => if b then v :: applyMask bs vs else applyMask bs vs
  | _, _ => []

/-- `table[mask]`: boolean-mask row selection applied to a whole table. -/
def filterTable (t : Table) (mask : List Bool) : Table :=
  t.map (fun c => (c.1, applyMask mask c.2))

/-- The key list of a dictionary embedded as an association list. -/
def dictKeys {α : Type} (d : List (String × α)) : List String := d.map (·.1)

/-- Python exceptions raised by the two source files, tagged by the abstract
error kinds of the specification's taxonomy where one applies. -/
inductive PyErr where
  /-- The spec's `DuplicateParameterError`, naming the offending key. -/
  | duplicateParameter (key : String)
  /-- A `KeyError` raised with an explanatory message. -/
  | keyErrorMsg (msg : String)
  /-- `TypeError: unhashable type` from calling `set()` on dict values. -/
  | typeErrorUnhashable
  /-- `KeyError: pop from an empty set` from `set().pop()`. -/
  | keyErrorPopEmpty
  /-- `NameError`: use of a name that is not defined (e.g. an unimported module). -/
  | nameError (name : String)
  /-- The spec's `ArgumentConflictError` (a `SyntaxError` in the source). -/
  | argumentConflict
  /-- The spec's `MissingBehaviorError`: `getattr(model, 'mc_'+galprop)`
  raising `AttributeError`, naming the galaxy property whose Monte Carlo
  function is absent. -/
  | missingBehavior (galprop : String)
deriving DecidableEq, Repr

/-! ### Component models and the blueprint (`hod_factory.py`) -/

/-- A component model instance as consumed by `HodModel`: the parameter
dictionary, the occupation bound, the optional secondary-haloprop
declaration, the optional new-haloprop function dictionary (functions are
opaque, embedded as `Nat` identifiers), and the publication list. -/
structure HodComponent where
  param_dict : List (String × Int) := []
  occupation_bound : Int := 1
  sec_haloprop_key : Option String := none
  new_haloprop_dict : Option (List (String × Nat)) := none
  publications : List String := []

/-- The `model_blueprint`: galaxy type name ↦ (feature name ↦ component). -/
abbrev Blueprint := List (String × List (String × HodComponent))

/-- Modelled from the spec: `occuhelp.test_repeated_keys`, defined in the
module `occupation_helpers` which is not part of the sources.  Per the spec,
the parameter-dictionary merge verifies that none of a component's parameter
names already exist in the accumulator and on a collision fails with a
DuplicateParameterError naming the offending key. -/
def testRepeatedKeys (acc pd : List (String × Int)) : Except PyErr Unit :=
  match pd.find? (fun kv => decide (kv.1 ∈ dictKeys acc)) with
  | some kv => .error (.duplicateParameter kv.1)
  | none => .ok ()

/-- Inner loop of `build_composite_param_dict`: iterate the features of one
galaxy type, checking each component's `param_dict` against the accumulator
and then merging it (`dict(new.items() + acc.items())` lets the accumulator
win collisions, which the preceding check has ruled out). -/
def paramLoopFeats :
    List (String × HodComponent) → List (String × Int) → Except PyErr (List (String × Int))
  | [], acc => .ok acc
  | f :: fs, acc =>
    match testRepeatedKeys acc f.2.param_dict with
    | .error e => .error e
    | .ok _ => paramLoopFeats fs (acc ++ f.2.param_dict)

/-- Outer loop of `build_composite_param_dict`: iterate the galaxy types. -/
def paramLoopTypes : Blueprint → List (String × Int) → Except PyErr (List (String × Int))
  | [], acc => .ok acc
  | g :: gs, acc =>
    match paramLoopFeats g.2 acc with
    | .error e => .error e
    | .ok acc2 => paramLoopTypes gs acc2

/-- `HodModel.build_composite_param_dict`: merge every component's parameter
dictionary into the composite parameter dictionary. -/
def build_composite_param_dict (bp : Blueprint) : Except PyErr (List (String × Int)) :=
  paramLoopTypes bp []

/-- The component parameter dictionaries of a blueprint, flattened in
iteration order (gal_types outer, features inner). -/
def blueprintParamDicts (bp : Blueprint) : List (List (String × Int)) :=
  (bp.map (fun g => g.2.map (fun f => f.2.param_dict))).flatten

/-- The single-list folding of the two nested merge loops. -/
def buildLoop :
    List (List (String × Int)) → List (String × Int) → Except PyErr (List (String × Int))
  | [], acc => .ok acc
  | pd :: rest, acc =>
    match testRepeatedKeys acc pd with
    | .error e => .error e
    | .ok _ => buildLoop rest (acc ++ pd)

/-- Two parameter dictionaries declare no common parameter name. -/
def keysDisj (a b : List (String × Int)) : Prop :=
  ∀ k ∈ dictKeys a, k ∉ dictKeys b

/-! ### Secondary-haloprop key resolution (`HodModel._create_haloprop_keys`) -/

/-- The per-gal_type `temp_dict` of `_create_haloprop_keys`: feature name ↦
declared `sec_haloprop_key`, over the features that declare one. -/
def secTempDict (feats : List (String × HodComponent)) : List (String × String) :=
  feats.filterMap (fun f => (f.2.sec_haloprop_key).map (fun s => (f.1, s)))

/-- The loop of `_create_haloprop_keys` over gal_types.  Within a gal_type,
two distinct declared secondary keys raise a `KeyError`.  A gal_type with
exactly one distinct declared key stores its whole `temp_dict` (a dict, not
the key string) into `sec_haloprop_key_dict`.  After the loop the source
evaluates `set(sec_haloprop_key_dict.values())`: its elements are Python
dicts, which are unhashable, so any nonempty accumulator raises
`TypeError: unhashable type` before a secondary key can be assigned. -/
def halopropKeysLoop (profPrim : String) :
    Blueprint → List (String × List (String × String)) →
      Except PyErr (String × Option String)
  | [], secDict =>
      if secDict.isEmpty then .ok (profPrim, none)
      else .error .typeErrorUnhashable
  | g :: gs, secDict =>
      let td := secTempDict g.2
      if ((td.map (·.2)).dedup).length > 1 then
        .error (.keyErrorMsg "same secondary halo property required for all behaviors of a gal_type")
      else if ((td.map (·.2)).dedup).length = 1 then
        halopropKeysLoop profPrim gs (secDict ++ [(g.1, td)])
      else halopropKeysLoop profPrim gs secDict

/-- `HodModel._create_haloprop_keys`: the primary key is inherited from the
halo-profile model; the secondary key is resolved (or not) from the blueprint.
The result is `(prim_haloprop_key, optional sec_haloprop_key)`. -/
def create_haloprop_keys (profPrim : String) (bp : Blueprint) :
    Except PyErr (String × Option String) :=
  halopropKeysLoop profPrim bp []

/-! ### New-haloprop merge (`HodModel.get_new_haloprop_dict`) -/

/-- Inner loop of `get_new_haloprop_dict` over one gal_type's features.
New-haloprop functions are opaque and embedded as `Nat` identifiers.
For a feature declaring `new_haloprop_dict`, the source computes
`intersection = set(new_dict) & set(output_haloprop_dict)` and then tests
`intersection != \x7b\x7d` — a comparison of a set against an empty *dict*
literal, which is true in Python regardless of the intersection, so the
collision branch is taken unconditionally (the union branch is dead code):
an empty intersection raises `KeyError` at `intersection.pop()`, and a
nonempty one raises `NameError` at `warnings.warn` because `hod_factory.py`
never imports the `warnings` module. -/
def newHalopropFeats :
    List (String × HodComponent) → List (String × Nat) → Except PyErr (List (String × Nat))
  | [], acc => .ok acc
  | f :: fs, acc =>
    match f.2.new_haloprop_dict with
    | none => newHalopropFeats fs acc
    | some nd =>
      let inter := (dictKeys nd).filter (fun k => decide (k ∈ dictKeys acc))
      if inter.isEmpty then .error .keyErrorPopEmpty
      else .error (.nameError "warnings")

/-- Outer loop of `get_new_haloprop_dict` over gal_types. -/
def newHalopropTypes : Blueprint → List (String × Nat) → Except PyErr (List (String × Nat))
  | [], acc => .ok acc
  | g :: gs, acc =>
    match newHalopropFeats g.2 acc with
    | .error e => .error e
    | .ok acc2 => newHalopropTypes gs acc2

/-- `HodModel.get_new_haloprop_dict`: starts from the halo-profile model's
`param_func_dict` and folds every feature's `new_haloprop_dict` in. -/
def get_new_haloprop_dict (profParamFuncDict : List (String × Nat)) (bp : Blueprint) :
    Except PyErr (List (String × Nat)) :=
  newHalopropTypes bp profParamFuncDict

/-! ### The subhalo mock factory (`subhalo_mock_factory.py`) -/

/-- A composite model as consumed by `SubhaloMockFactory`: the ordered list of
galaxy properties to populate, the per-galprop Monte Carlo functions reached
through `getattr(self.model, 'mc_' + galprop)` (`none` embeds the missing
attribute), the per-galprop `gal_type_func` classifiers reached through
`model_blueprint[galprop]`, and the optional global selection function. -/
structure SubhaloModel where
  galprop_list : List String
  mc_funcs : String → Option (Table → List Int)
  gal_type_funcs : String → Option (Table → List Int) := fun _ => none
  galaxy_selection_func : Option (Table → List Bool) := none

/-- Modelled from the spec: `model_defaults.host_haloprop_prefix` (the
`model_defaults` module is not part of the sources); the spec calls the
columns read in stage 2 the host-halo-prefixed phase-space columns. -/
def hostHalopropPfx : String := "halo_"

/-- The `phase_space_keys` list of `precompute_galprops`. -/
def phaseSpaceKeys : List String := ["x", "y", "z", "vx", "vy", "vz"]

/-- First loop of `precompute_galprops`: copy every column named in
`additional_haloprops` from the halo table into the galaxy table. -/
def copyCols (halo : Table) : List String → Table → Except PyErr Table
  | [], g => .ok g
  | k :: ks, g =>
    match getCol halo k with
    | none => .error (.keyErrorMsg k)
    | some v => copyCols halo ks (setCol g k v)

/-- Second loop of `precompute_galprops`: for each phase-space key, copy the
galaxy table's host-halo-prefixed column into the bare key. -/
def copyPhase : List String → Table → Except PyErr Table
  | [], g => .ok g
  | k :: ks, g =>
    match getCol g (hostHalopropPfx ++ k) with
    | none => .error (.keyErrorMsg (hostHalopropPfx ++ k))
    | some v => copyPhase ks (setCol g k v)

/-- Final loop of `precompute_galprops`: for each galprop whose component has
a `gal_type_func`, attach the `<galprop>_gal_type` classification column. -/
def galTypeLoop (m : SubhaloModel) : List String → Table → Table
  | [], g => g
  | p :: ps, g =>
    match m.gal_type_funcs p with
    | none => galTypeLoop m ps g
    | some f => galTypeLoop m ps (setCol g (p ++ "_gal_type") (f g))

/-- `SubhaloMockFactory.precompute_galprops`: build the galaxy table from the
halo table — inherit `additional_haloprops`, copy the six phase-space columns
from their host-halo-prefixed versions, assign `galid = np.arange(len(table))`,
then attach the gal_type classification columns. -/
def precompute_galprops (m : SubhaloModel) (additional_haloprops : List String)
    (halo : Table) : Except PyErr Table :=
  match copyCols halo additional_haloprops [] with
  | .error e => .error e
  | .ok g1 =>
    match copyPhase phaseSpaceKeys g1 with
    | .error e => .error e
    | .ok g2 =>
      let g3 := setCol g2 "galid" ((List.range (nRows g2)).map Int.ofNat)
      .ok (galTypeLoop m m.galprop_list g3)

/-- The property-writing loop of `populate`, with the per-galprop writes but
skipping galprops with no Monte Carlo function (used to characterise prefixes
of the run; `runProps` is the loop as the source executes it). -/
def writeAll (m : SubhaloModel) : List String → Table → Table
  | [], g => g
  | p :: ps, g =>
    match m.mc_funcs p with
    | none => writeAll m ps g
    | some f => writeAll m ps (setCol g p (f g))

/-- The property-writing loop of `populate` exactly as the source runs it:
`for galprop_key in galprop_list: model_func = getattr(self.model, 'mc_'+key);
self.galaxy_table[key] = model_func(halo_table=self.galaxy_table)`.
The returned pair is the state of `self.galaxy_table` when the loop stops,
together with the exception (an `AttributeError` from `getattr`) if one was
raised — the table mutated so far is kept by the mock object. -/
def runProps (m : SubhaloModel) : List String → Table → Table × Option PyErr
  | [], g => (g, none)
  | p :: ps, g =>
    match m.mc_funcs p with
    | none => (g, some (.missingBehavior p))
    | some f => runProps m ps (setCol g p (f g))

/-- `SubhaloMockFactory.populate`: write every galprop column in
`galprop_list` order, then, when the model declares a
`galaxy_selection_func`, apply it once as a boolean row mask and replace
`self.galaxy_table` with the masked table.  The result is the state of
`self.galaxy_table` after the call plus the exception, if any, the call
raised. -/
def populate (m : SubhaloModel) (g : Table) : Table × Option PyErr :=
  match runProps m m.galprop_list g with
  | (g1, some e) => (g1, some e)
  | (g1, none) =>
    match m.galaxy_selection_func with
    | none => (g1, none)
    | some sel => (filterTable g1 (sel g1), none)

/-! ### Behavior dispatch (`HodModel.retrieve_relevant_haloprops`) -/

/-- A mock galaxy population as accessed by the dispatch path: `getattr(mock,
haloprop_key)` yields a property array, and `mock._gal_type_indices[gal_type]`
yields the precomputed row slice of that gal_type. -/
structure MockGalaxies where
  props : String → List Int
  gal_type_indices : String → List Nat

/-- The composite model's `haloprop_key_dict`: the primary key and the
optional secondary key. -/
structure HalopropKeyDict where
  prim_haloprop_key : String
  sec_haloprop_key : Option String := none

/-- `array[slice]`: extract the entries of `arr` at the given indices. -/
def sliceArr (arr : List Int) (idx : List Nat) : List Int :=
  idx.filterMap (fun i => arr.get? i)

/-- `HodModel.retrieve_relevant_haloprops`: resolve the input arrays either
from the positional arguments or from a mock supplied through the reserved
`mock_galaxies` keyword; supplying neither or both raises a `SyntaxError`
(the spec's ArgumentConflictError). -/
def retrieve_relevant_haloprops (hk : HalopropKeyDict) (gal_type : String)
    (args : List (List Int)) (mock : Option MockGalaxies) :
    Except PyErr (List (List Int)) :=
  match args, mock with
  | [], some mk =>
    let sl := mk.gal_type_indices gal_type
    let prim := sliceArr (mk.props hk.prim_haloprop_key) sl
    (match hk.sec_haloprop_key with
     | none => .ok [prim]
     | some sk => .ok [prim, sliceArr (mk.props sk) sl])
  | a :: rest, none => .ok (a :: rest)
  | [], none => .error .argumentConflict
  | _ :: _, some _ => .error .argumentConflict

/-! ### Concrete instances used to instantiate the theorems -/

/-- A small concrete blueprint with pairwise-disjoint parameter names (C1). -/
def c1Blueprint : Blueprint :=
  [("centrals",
     [("occupation_model", { param_dict := [("logMmin", 12)] }),
      ("profile_model", { param_dict := [("NFWmodel_conc", 5)] })]),
   ("satellites",
     [("occupation_model", { param_dict := [("alpha", 1), ("logM1", 13)] })])]

/-- A blueprint in which no feature declares a secondary haloprop (C2). -/
def c2BlueprintNone : Blueprint := [("centrals", [("occupation_model", {})])]

/-- A blueprint whose single gal_type declares two different secondary
haloprops (C2). -/
def c2BlueprintWithin : Blueprint :=
  [("centrals",
     [("occupation_model", { sec_haloprop_key := some "halo_zform" }),
      ("quenching_model", { sec_haloprop_key := some "halo_conc" })])]

/-- A blueprint whose gal_types all agree on one secondary haloprop (C2). -/
def c2BlueprintAgree : Blueprint :=
  [("centrals", [("occupation_model", { sec_haloprop_key := some "halo_zform" })]),
   ("satellites", [("occupation_model", { sec_haloprop_key := some "halo_zform" })])]

/-- The halo-profile model's `param_func_dict` (C3). -/
def c3ProfDict : List (String × Nat) := [("NFWmodel_conc", 0)]

/-- A blueprint contributing a new haloprop whose name does not collide with
the halo-profile model's dictionary (C3). -/
def c3BlueprintFresh : Blueprint :=
  [("centrals",
     [("quenching_model", { new_haloprop_dict := some [("halo_zform", 1)] })])]

/-- A blueprint contributing a new haloprop whose name collides with the
halo-profile model's dictionary (C3). -/
def c3BlueprintCollide : Blueprint :=
  [("centrals",
     [("profile_model", { new_haloprop_dict := some [("NFWmodel_conc", 2)] })])]

/-- A concrete halo table of two rows (C4). -/
def c4Halo : Table :=
  [("halo_x", [1, 2]), ("halo_y", [3, 4]), ("halo_z", [5, 6]),
   ("halo_vx", [7, 8]), ("halo_vy", [9, 10]), ("halo_vz", [11, 12]),
   ("halo_mvir", [100, 200])]

/-- The `additional_haloprops` list for the C4 instance. -/
def c4Additional : List String :=
  ["halo_mvir", "halo_x", "halo_y", "halo_z", "halo_vx", "halo_vy", "halo_vz"]

/-- A model with one galprop and no gal_type classifiers (C4). -/
def c4Model : SubhaloModel :=
  { galprop_list := ["stellar_mass"], mc_funcs := fun _ => none }

/-- A model with one deterministic Monte Carlo function and a selection
function keeping only the first row (C5). -/
def c5Model : SubhaloModel :=
  { galprop_list := ["stellar_mass"],
    mc_funcs := fun p =>
      if p = "stellar_mass" then some (fun g => List.replicate (nRows g) 7) else none,
    galaxy_selection_func :=
      some (fun g => (List.range (nRows g)).map (fun i => decide (i = 0))) }

/-- A two-row galaxy table to populate (C5). -/
def c5Start : Table := [("galid", [0, 1]), ("halo_mvir", [100, 200])]

/-- A model whose deterministic selection function always drops the last row,
so that re-population keeps shrinking the table (C6). -/
def c6Model : SubhaloModel :=
  { galprop_list := ["stellar_mass"],
    mc_funcs := fun p =>
      if p = "stellar_mass" then some (fun g => List.replicate (nRows g) 7) else none,
    galaxy_selection_func :=
      some (fun g => (List.range (nRows g)).map (fun i => decide (i + 1 < nRows g))) }

/-- A two-row galaxy table (C6). -/
def c6Start : Table := [("galid", [0, 1])]

/-- A model with no selection function whose Monte Carlo function reads only
the inherited halo column, as the amended C6 requires. -/
def c6aModel : SubhaloModel :=
  { galprop_list := ["stellar_mass"],
    mc_funcs := fun p =>
      if p = "stellar_mass" then
        some (fun g => match getCol g "halo_mvir" with | some v => v | none => [])
      else none }

/-- A one-column galaxy table (amended C6). -/
def c6aStart : Table := [("halo_mvir", [3, 4])]

/-- A model whose first galprop has a Monte Carlo function and whose second
does not, so `populate()` fails after having written a column (C7). -/
def c7Model : SubhaloModel :=
  { galprop_list := ["stellar_mass", "ssfr"],
    mc_funcs := fun p =>
      if p = "stellar_mass" then some (fun g => List.replicate (nRows g) 5) else none }

/-- A two-row galaxy table (C7). -/
def c7Start : Table := [("halo_mvir", [1, 2])]

/-- A model declaring a galprop with no Monte Carlo function at all (C9). -/
def c9Model : SubhaloModel :=
  { galprop_list := ["stellar_mass"], mc_funcs := fun _ => none }

/-- A one-row galaxy table (C9). -/
def c9Start : Table := [("halo_mvir", [1])]

/-- A model with a deterministic Monte Carlo function and a selection mask
keeping the even rows (C10). -/
def c10Model : SubhaloModel :=
  { galprop_list := ["stellar_mass"],
    mc_funcs := fun p =>
      if p = "stellar_mass" then some (fun g => List.replicate (nRows g) 7) else none,
    galaxy_selection_func :=
      some (fun g => (List.range (nRows g)).map (fun i => decide (i % 2 = 0))) }

/-- A three-row galaxy table (C10). -/
def c10Start : Table := [("galid", [0, 1, 2]), ("halo_mvir", [5, 6, 7])]

/-! ### Basic lemmas about the table model -/

theorem getCol_setCol_self (t : Table) (k : String) (v : List Int) :
    getCol (setCol t k v) k = some v := by
  induction t with
  | nil => simp [setCol, getCol]
  | cons c cs ih =>
    by_cases h : c.1 = k
    · simp [setCol, getCol, h]
    · simp [setCol, getCol, h, ih]

theorem getCol_setCol_ne (t : Table) {k k' : String} (v : List Int) (h : k' ≠ k) :
    getCol (setCol t k v) k' = getCol t k' := by
  induction t with
  | nil => simp [setCol, getCol, Ne.symm h]
  | cons c cs ih =>
    by_cases hc : c.1 = k
    · simp [setCol, getCol, hc, Ne.symm h]
    · by_cases hc' : c.1 = k'
      · simp [setCol, getCol, hc, hc', h]
      · simp [setCol, getCol, hc, hc', ih]

theorem setCol_ne_nil (t : Table) (k : String) (v : List Int) :
    setCol t k v ≠ [] := by
  cases t with
  | nil => simp [setCol]
  | cons c cs =>
    by_cases h : c.1 = k <;> simp [setCol, h]

theorem mem_setCol {t : Table} {k : String} {v : List Int} {c : String × List Int}
    (hc : c ∈ setCol t k v) : c = (k, v) ∨ c ∈ t := by
  induction t with
  | nil => simpa [setCol] using hc
  | cons d ds ih =>
    by_cases h : d.1 = k
    · rcases (by simpa [setCol, h] using hc) with h1 | h1
      · exact Or.inl h1
      · exact Or.inr (List.mem_cons_of_mem _ h1)
    · rcases (by simpa [setCol, h] using hc) with h1 | h1
      · exact Or.inr (by simp [h1])
      · rcases ih h1 with h2 | h2
        · exact Or.inl h2
        · exact Or.inr (List.mem_cons_of_mem _ h2)

theorem WFcols_setCol {t : Table} {n : Nat} {k : String} {v : List Int}
    (hwf : WFcols t n) (hv : v.length = n) : WFcols (setCol t k v) n := by
  intro c hc
  rcases mem_setCol hc with h | h
  · simpa [h] using hv
  · exact hwf c h

theorem getCol_mem {t : Table} {k : String} {v : List Int}
    (h : getCol t k = some v) : (k, v) ∈ t := by
  induction t with
  | nil => simp [getCol] at h
  | cons c cs ih =>
    obtain ⟨c1, c2⟩ := c
    by_cases hc : c1 = k
    · subst hc
      simp [getCol] at h
      simp [h]
    · simp [getCol, hc] at h
      exact List.mem_cons_of_mem _ (ih h)

theorem nRows_of_WFcols {t : Table} {n : Nat} (hwf : WFcols t n) (hne : t ≠ []) :
    nRows t = n := by
  cases t with
  | nil => exact absurd rfl hne
  | cons c cs => exact hwf c (List.mem_cons_self c cs)

theorem applyMask_sublist (m : List Bool) (v : List Int) :
    (applyMask m v).Sublist v := by
  induction m generalizing v with
  | nil => cases v <;> simp [applyMask]
  | cons b bs ih =>
    cases v with
    | nil => simp [applyMask]
    | cons x xs =>
      by_cases hb : b
      · simpa [applyMask, hb] using (ih xs).cons₂ x
      · simpa [applyMask, hb] using (ih xs).cons x

theorem length_applyMask {m : List Bool} {v : List Int} (h : m.length = v.length) :
    (applyMask m v).length = m.count true := by
  induction m generalizing v with
  | nil => simp [applyMask]
  | cons b bs ih =>
    cases v with
    | nil => simp at h
    | cons x xs =>
      have h' : bs.length = xs.length := by simpa using h
      by_cases hb : b
      · simp [applyMask, hb, ih h', List.count_cons]
      · simp [applyMask, hb, ih h', List.count_cons]

theorem getCol_filterTable (t : Table) (mask : List Bool) (k : String) :
    getCol (filterTable t mask) k = (getCol t k).map (applyMask mask) := by
  induction t with
  | nil => simp [filterTable, getCol]
  | cons c cs ih =>
    by_cases hc : c.1 = k
    · simp [filterTable, getCol, hc]
    · simpa [filterTable, getCol, hc] using ih

theorem filterTable_ne_nil {t : Table} (mask : List Bool) (h : t ≠ []) :
    filterTable t mask ≠ [] := by
  cases t with
  | nil => exact absurd rfl h
  | cons c cs => simp [filterTable]

theorem WFcols_filterTable {t : Table} {n : Nat} {mask : List Bool}
    (hwf : WFcols t n) (hm : mask.length = n) :
    WFcols (filterTable t mask) (mask.count true) := by
  intro c hc
  rcases List.mem_map.1 hc with ⟨d, hd, rfl⟩
  exact length_applyMask (by rw [hm, hwf d hd])

/-! ### Lemmas for the parameter-dictionary merge -/

theorem buildLoop_cons (pd : List (String × Int)) (rest : List (List (String × Int)))
    (acc : List (String × Int)) :
    buildLoop (pd :: rest) acc =
      match testRepeatedKeys acc pd with
      | .error e => .error e
      | .ok _ => buildLoop rest (acc ++ pd) := rfl

theorem paramLoopFeats_cons (f : String × HodComponent) (fs : List (String × HodComponent))
    (acc : List (String × Int)) :
    paramLoopFeats (f :: fs) acc =
      match testRepeatedKeys acc f.2.param_dict with
      | .error e => .error e
      | .ok _ => paramLoopFeats fs (acc ++ f.2.param_dict) := rfl

theorem paramLoopTypes_cons (g : String × List (String × HodComponent)) (gs : Blueprint)
    (acc : List (String × Int)) :
    paramLoopTypes (g :: gs) acc =
      match paramLoopFeats g.2 acc with
      | .error e => .error e
      | .ok acc2 => paramLoopTypes gs acc2 := rfl

theorem mem_dictKeys_append {α : Type} (a b : List (String × α)) (k : String) :
    k ∈ dictKeys (a ++ b) ↔ k ∈ dictKeys a ∨ k ∈ dictKeys b := by
  simp [dictKeys]

theorem testRepeatedKeys_ok_iff (acc pd : List (String × Int)) :
    (∃ u, testRepeatedKeys acc pd = .ok u) ↔ keysDisj pd acc := by
  rcases hfind : pd.find? (fun kv => decide (kv.1 ∈ dictKeys acc)) with _ | kv
  · constructor
    · intro _ k hk
      rcases List.mem_map.1 hk with ⟨kv, hkv, rfl⟩
      have := List.find?_eq_none.mp hfind kv hkv
      simpa using this
    · intro _
      exact ⟨(), by simp [testRepeatedKeys, hfind]⟩
  · constructor
    · rintro ⟨u, hu⟩
      simp [testRepeatedKeys, hfind] at hu
    · intro hdisj
      have hmem := List.mem_of_find?_eq_some hfind
      have hp := List.find?_some hfind
      simp only [decide_eq_true_eq] at hp
      exact absurd hp (hdisj kv.1 (List.mem_map.2 ⟨kv, hmem, rfl⟩))

theorem testRepeatedKeys_error {acc pd : List (String × Int)} {e : PyErr}
    (h : testRepeatedKeys acc pd = .error e) :
    ∃ k, e = .duplicateParameter k ∧ k ∈ dictKeys pd ∧ k ∈ dictKeys acc := by
  rcases hfind : pd.find? (fun kv => decide (kv.1 ∈ dictKeys acc)) with _ | kv
  · simp [testRepeatedKeys, hfind] at h
  · have hmem := List.mem_of_find?_eq_some hfind
    have hp := List.find?_some hfind
    simp only [decide_eq_true_eq] at hp
    simp [testRepeatedKeys, hfind] at h
    subst h
    exact ⟨kv.1, rfl, List.mem_map.2 ⟨kv, hmem, rfl⟩, hp⟩

theorem buildLoop_ok :
    ∀ {pds : List (List (String × Int))} {acc d : List (String × Int)},
    (∀ pd ∈ pds, (dictKeys pd).Nodup) → (dictKeys acc).Nodup →
    buildLoop pds acc = .ok d →
    (dictKeys d).Nodup ∧
    (∀ k, k ∈ dictKeys d ↔ k ∈ dictKeys acc ∨ ∃ pd ∈ pds, k ∈ dictKeys pd) ∧
    d.length = acc.length + (pds.map List.length).sum := by
  intro pds
  induction pds with
  | nil =>
    intro acc d _ hacc h
    cases h
    exact ⟨hacc, fun k => by simp, by simp⟩
  | cons pd rest ih =>
    intro acc d hnd hacc h
    rw [buildLoop_cons] at h
    rcases htest : testRepeatedKeys acc pd with e | u
    · rw [htest] at h; cases h
    · rw [htest] at h
      have hdisj : keysDisj pd acc := (testRepeatedKeys_ok_iff acc pd).1 ⟨u, htest⟩
      have hacc2 : (dictKeys (acc ++ pd)).Nodup := by
        have heq : dictKeys (acc ++ pd) = dictKeys acc ++ dictKeys pd := by
          simp [dictKeys]
        rw [heq, List.nodup_append]
        exact ⟨hacc, hnd pd (List.mem_cons_self _ _),
          fun k hk hk2 => hdisj k hk2 hk⟩
      obtain ⟨h1, h2, h3⟩ := ih (fun q hq => hnd q (List.mem_cons_of_mem _ hq)) hacc2 h
      refine ⟨h1, fun k => ?_, ?_⟩
      · rw [h2 k, mem_dictKeys_append]
        constructor
        · rintro ((hk | hk) | ⟨q, hq, hk⟩)
          · exact Or.inl hk
          · exact Or.inr ⟨pd, List.mem_cons_self _ _, hk⟩
          · exact Or.inr ⟨q, List.mem_cons_of_mem _ hq, hk⟩
        · rintro (hk | ⟨q, hq, hk⟩)
          · exact Or.inl (Or.inl hk)
          · rcases List.mem_cons.1 hq with rfl | hq
            · exact Or.inl (Or.inr hk)
            · exact Or.inr ⟨q, hq, hk⟩
      · rw [h3]
        simp [List.length_append]
        omega

theorem buildLoop_ok_of_disj :
    ∀ {pds : List (List (String × Int))} {acc : List (String × Int)},
    pds.Pairwise keysDisj → (∀ pd ∈ pds, keysDisj pd acc) →
    ∃ d, buildLoop pds acc = .ok d := by
  intro pds
  induction pds with
  | nil => exact fun _ _ => ⟨_, rfl⟩
  | cons pd rest ih =>
    intro acc hpw hdisj
    obtain ⟨u, htest⟩ := (testRepeatedKeys_ok_iff acc pd).2 (hdisj pd (List.mem_cons_self _ _))
    have hrest : ∀ q ∈ rest, keysDisj q (acc ++ pd) := by
      intro q hq k hk hk2
      rcases (mem_dictKeys_append acc pd k).1 hk2 with h | h
      · exact hdisj q (List.mem_cons_of_mem _ hq) k hk h
      · exact (List.pairwise_cons.1 hpw).1 q hq k h hk
    obtain ⟨d, hd⟩ := ih (List.pairwise_cons.1 hpw).2 hrest
    refine ⟨d, ?_⟩
    rw [buildLoop_cons, htest]
    exact hd

theorem buildLoop_disj_of_ok :
    ∀ {pds : List (List (String × Int))} {acc d : List (String × Int)},
    buildLoop pds acc = .ok d →
    pds.Pairwise keysDisj ∧ ∀ pd ∈ pds, keysDisj pd acc := by
  intro pds
  induction pds with
  | nil => exact fun _ => ⟨List.Pairwise.nil, by simp⟩
  | cons pd rest ih =>
    intro acc d h
    rw [buildLoop_cons] at h
    rcases htest : testRepeatedKeys acc pd with e | u
    · rw [htest] at h; cases h
    · rw [htest] at h
      have hdisj : keysDisj pd acc := (testRepeatedKeys_ok_iff acc pd).1 ⟨u, htest⟩
      obtain ⟨hpw, hrest⟩ := ih h
      constructor
      · rw [List.pairwise_cons]
        refine ⟨fun q hq k hk hkq => ?_, hpw⟩
        exact hrest q hq k hkq ((mem_dictKeys_append acc pd k).2 (Or.inr hk))
      · intro q hq
        rcases List.mem_cons.1 hq with rfl | hq
        · exact hdisj
        · intro k hk hka
          exact hrest q hq k hk ((mem_dictKeys_append acc pd k).2 (Or.inl hka))

theorem buildLoop_error :
    ∀ {pds : List (List (String × Int))} {acc : List (String × Int)} {e : PyErr},
    buildLoop pds acc = .error e →
    ∃ k, e = .duplicateParameter k ∧
      2 ≤ pds.countP (fun pd => decide (k ∈ dictKeys pd)) +
          (if k ∈ dictKeys acc then 1 else 0) := by
  intro pds
  induction pds with
  | nil => intro acc e h; cases h
  | cons pd rest ih =>
    intro acc e h
    rw [buildLoop_cons] at h
    rcases htest : testRepeatedKeys acc pd with e2 | u
    · rw [htest] at h
      cases h
      obtain ⟨k, rfl, hk1, hk2⟩ := testRepeatedKeys_error htest
      refine ⟨k, rfl, ?_⟩
      rw [List.countP_cons]
      simp [hk1, hk2]
    · rw [htest] at h
      obtain ⟨k, rfl, hk⟩ := ih h
      refine ⟨k, rfl, ?_⟩
      rw [List.countP_cons]
      simp only [mem_dictKeys_append] at hk
      by_cases h1 : k ∈ dictKeys pd <;> by_cases h2 : k ∈ dictKeys acc <;>
        simp only [h1, h2, decide_True, decide_False, if_true, if_false, or_true,
          true_or, or_false, false_or, if_pos, if_neg, not_false_iff] at hk ⊢ <;>
        omega

theorem paramLoopFeats_eq_buildLoop (fs : List (String × HodComponent)) :
    ∀ acc, paramLoopFeats fs acc = buildLoop (fs.map (fun f => f.2.param_dict)) acc := by
  induction fs with
  | nil => intro acc; rfl
  | cons f fs ih =>
    intro acc
    rw [List.map_cons, paramLoopFeats_cons, buildLoop_cons]
    rcases htest : testRepeatedKeys acc f.2.param_dict with e | u
    · rfl
    · exact ih _

theorem buildLoop_append (l1 l2 : List (List (String × Int))) :
    ∀ acc, buildLoop (l1 ++ l2) acc =
      match buildLoop l1 acc with
      | .ok acc2 => buildLoop l2 acc2
      | .error e => .error e := by
  induction l1 with
  | nil => intro acc; rfl
  | cons pd rest ih =>
    intro acc
    rw [List.cons_append, buildLoop_cons, buildLoop_cons]
    rcases htest : testRepeatedKeys acc pd with e | u
    · rfl
    · exact ih _

theorem build_composite_eq_buildLoop (bp : Blueprint) :
    build_composite_param_dict bp = buildLoop (blueprintParamDicts bp) [] := by
  show paramLoopTypes bp [] = _
  suffices h : ∀ acc, paramLoopTypes bp acc = buildLoop (blueprintParamDicts bp) acc from h []
  induction bp with
  | nil => intro acc; rfl
  | cons g gs ih =>
    intro acc
    have hbp : blueprintParamDicts (g :: gs) =
        (g.2.map (fun f => f.2.param_dict)) ++ blueprintParamDicts gs := by
      simp [blueprintParamDicts]
    rw [paramLoopTypes_cons, paramLoopFeats_eq_buildLoop, hbp, buildLoop_append]
    rcases hfeat : buildLoop (g.2.map (fun f => f.2.param_dict)) acc with e | acc2 <;>
      rw [hfeat]
    exact ih _

/-! ### C1: the composite parameter dictionary -/

/-- C1: for every valid blueprint, the composite parameter dictionary's key
set equals the union of every component's parameter key set and its size is
the sum of the component dictionary sizes; construction succeeds exactly when
the component dictionaries are pairwise disjoint, and when two components
share a parameter name it fails with a `DuplicateParameterError` naming a key
that occurs in at least two component dictionaries, instead of silently
overwriting. -/
theorem c1_param_dict_merge (bp : Blueprint)
    (hnd : ∀ pd ∈ blueprintParamDicts bp, (dictKeys pd).Nodup) :
    (∀ d, build_composite_param_dict bp = .ok d →
      (dictKeys d).Nodup ∧
      (∀ k, k ∈ dictKeys d ↔ ∃ pd ∈ blueprintParamDicts bp, k ∈ dictKeys pd) ∧
      d.length = ((blueprintParamDicts bp).map List.length).sum) ∧
    ((∃ d, build_composite_param_dict bp = .ok d) ↔
      (blueprintParamDicts bp).Pairwise keysDisj) ∧
    (∀ e, build_composite_param_dict bp = .error e →
      ∃ k, e = .duplicateParameter k ∧
        2 ≤ (blueprintParamDicts bp).countP (fun pd => decide (k ∈ dictKeys pd))) := by
  rw [build_composite_eq_buildLoop]
  refine ⟨?_, ⟨?_, ?_⟩, ?_⟩
  · intro d hd
    obtain ⟨h1, h2, h3⟩ := buildLoop_ok hnd (by simp [dictKeys]) hd
    refine ⟨h1, fun k => ?_, by simpa using h3⟩
    rw [h2 k]
    simp [dictKeys]
  · rintro ⟨d, hd⟩
    exact (buildLoop_disj_of_ok hd).1
  · intro hpw
    exact buildLoop_ok_of_disj hpw (fun pd _ k _ hk => by simp [dictKeys] at hk)
  · intro e he
    obtain ⟨k, rfl, hk⟩ := buildLoop_error he
    refine ⟨k, rfl, ?_⟩
    simpa [dictKeys] using hk

/-- C1 witness: the theorem applied to a concrete three-component blueprint
whose merged dictionary is computed explicitly. -/
theorem c1_witness :
    (∀ pd ∈ blueprintParamDicts c1Blueprint, (dictKeys pd).Nodup) ∧
    ((dictKeys [("logMmin", (12 : Int)), ("NFWmodel_conc", 5), ("alpha", 1),
        ("logM1", 13)]).Nodup ∧
     (∀ k, k ∈ dictKeys [("logMmin", (12 : Int)), ("NFWmodel_conc", 5), ("alpha", 1),
        ("logM1", 13)] ↔ ∃ pd ∈ blueprintParamDicts c1Blueprint, k ∈ dictKeys pd) ∧
     ([("logMmin", (12 : Int)), ("NFWmodel_conc", 5), ("alpha", 1),
        ("logM1", 13)] : List (String × Int)).length =
       ((blueprintParamDicts c1Blueprint).map List.length).sum) :=
  ⟨by decide, (c1_param_dict_merge c1Blueprint (by decide)).1 _ rfl⟩

/-! ### C2: secondary-haloprop consistency -/

/-- C2: evaluation of `_create_haloprop_keys` on concrete blueprints.  When no
feature declares a secondary haloprop, construction succeeds with no
`sec_haloprop_key`, as the claim says; when one gal_type declares two
different keys, construction fails (a `KeyError`, the realisation of the
spec's ConsistencyError); but when the declared keys all agree — where the
claim requires construction to succeed with `sec_haloprop_key` equal to the
common key — the source instead raises a `TypeError`: it stores each
gal_type's `temp_dict` (a dict) as a value of `sec_haloprop_key_dict` and
then evaluates `set(sec_haloprop_key_dict.values())`, hashing unhashable
dicts.  The same `TypeError` pre-empts the claimed across-gal_type
ConsistencyError. -/
theorem c2_sec_haloprop_key_bug :
    create_haloprop_keys "halo_mvir" c2BlueprintNone = .ok ("halo_mvir", none) ∧
    create_haloprop_keys "halo_mvir" c2BlueprintWithin =
      .error (.keyErrorMsg
        "same secondary halo property required for all behaviors of a gal_type") ∧
    create_haloprop_keys "halo_mvir" c2BlueprintAgree = .error .typeErrorUnhashable :=
  ⟨rfl, rfl, rfl⟩

/-! ### C3: new-haloprop merge -/

/-- C3: evaluation of `get_new_haloprop_dict` on concrete inputs.  The claim
says a non-colliding `new_haloprop_dict` is unioned into the composite
dictionary and a colliding one is discarded with a warning while the
first-registered function is kept; instead the comparison of
`intersection` (a set) against an empty dict literal is true regardless of
the intersection, so every feature that declares a `new_haloprop_dict` takes
the collision branch: the non-colliding case raises `KeyError` (`pop` from
the empty intersection set) and the colliding case raises `NameError`
(the `warnings` module is never imported by `hod_factory.py`). -/
theorem c3_new_haloprop_bug :
    get_new_haloprop_dict c3ProfDict c3BlueprintFresh = .error .keyErrorPopEmpty ∧
    get_new_haloprop_dict c3ProfDict c3BlueprintCollide =
      .error (.nameError "warnings") :=
  ⟨rfl, rfl⟩

/-! ### Lemmas for the population loop -/

theorem runProps_cons (m : SubhaloModel) (p : String) (ps : List String) (g : Table) :
    runProps m (p :: ps) g =
      match m.mc_funcs p with
      | none => (g, some (.missingBehavior p))
      | some f => runProps m ps (setCol g p (f g)) := rfl

theorem writeAll_cons (m : SubhaloModel) (p : String) (ps : List String) (g : Table) :
    writeAll m (p :: ps) g =
      match m.mc_funcs p with
      | none => writeAll m ps g
      | some f => writeAll m ps (setCol g p (f g)) := rfl

theorem populate_eq_of_runProps_ok {m : SubhaloModel} {g g1 : Table}
    (h : runProps m m.galprop_list g = (g1, none)) :
    populate m g =
      match m.galaxy_selection_func with
      | none => (g1, none)
      | some sel => (filterTable g1 (sel g1), none) := by
  unfold populate
  rw [h]

theorem populate_eq_of_runProps_err {m : SubhaloModel} {g g1 : Table} {e : PyErr}
    (h : runProps m m.galprop_list g = (g1, some e)) :
    populate m g = (g1, some e) := by
  unfold populate
  rw [h]

theorem runProps_all_some (m : SubhaloModel) :
    ∀ (ps : List String) (g : Table), (∀ p ∈ ps, (m.mc_funcs p).isSome) →
    runProps m ps g = (writeAll m ps g, none) := by
  intro ps
  induction ps with
  | nil => intro g _; rfl
  | cons p ps ih =>
    intro g hok
    have hsome := hok p (List.mem_cons_self _ _)
    rcases hp : m.mc_funcs p with _ | f
    · rw [hp] at hsome; simp at hsome
    · rw [runProps_cons, writeAll_cons, hp]
      exact ih _ (fun q hq => hok q (List.mem_cons_of_mem _ hq))

theorem getCol_writeAll_notMem (m : SubhaloModel) :
    ∀ (ps : List String) (g : Table) (k : String), k ∉ ps →
    getCol (writeAll m ps g) k = getCol g k := by
  intro ps
  induction ps with
  | nil => intro g k _; rfl
  | cons p ps ih =>
    intro g k hk
    have hkp : k ≠ p := fun h => hk (h ▸ List.mem_cons_self _ _)
    have hkps : k ∉ ps := fun h => hk (List.mem_cons_of_mem _ h)
    rcases hp : m.mc_funcs p with _ | f
    · rw [writeAll_cons, hp]
      exact ih _ _ hkps
    · rw [writeAll_cons, hp]
      rw [ih _ _ hkps, getCol_setCol_ne _ _ hkp]

theorem runProps_missing (m : SubhaloModel) :
    ∀ (ps : List String) (g : Table) (p : String), p ∈ ps → m.mc_funcs p = none →
    ∃ q, (runProps m ps g).2 = some (.missingBehavior q) ∧ m.mc_funcs q = none := by
  intro ps
  induction ps with
  | nil => intro g p hp _; cases hp
  | cons r rs ih =>
    intro g p hp hnone
    rcases hr : m.mc_funcs r with _ | f
    · refine ⟨r, ?_, hr⟩
      rw [runProps_cons, hr]
    · have hpr : p ≠ r := fun h => by rw [h, hr] at hnone; cases hnone
      have hprs : p ∈ rs := by
        rcases List.mem_cons.1 hp with h | h
        · exact absurd h hpr
        · exact h
      obtain ⟨q, hq, hqn⟩ := ih (setCol g r (f g)) p hprs hnone
      refine ⟨q, ?_, hqn⟩
      rw [runProps_cons, hr]
      exact hq

theorem runProps_characterize (m : SubhaloModel) :
    ∀ (ps : List String) (g : Table),
    runProps m ps g =
      (writeAll m (ps.takeWhile (fun q => (m.mc_funcs q).isSome)) g,
       (ps.find? (fun q => (m.mc_funcs q).isNone)).map PyErr.missingBehavior) := by
  intro ps
  induction ps with
  | nil => intro g; rfl
  | cons p ps ih =>
    intro g
    rcases hp : m.mc_funcs p with _ | f
    · rw [runProps_cons, hp]
      have htw : (p :: ps).takeWhile (fun q => (m.mc_funcs q).isSome) = [] := by
        simp [List.takeWhile_cons, hp]
      have hfd : (p :: ps).find? (fun q => (m.mc_funcs q).isNone) = some p := by
        simp [List.find?_cons, hp]
      rw [htw, hfd]
      rfl
    · have htw : (p :: ps).takeWhile (fun q => (m.mc_funcs q).isSome) =
          p :: ps.takeWhile (fun q => (m.mc_funcs q).isSome) := by
        simp [List.takeWhile_cons, hp]
      have hfd : (p :: ps).find? (fun q => (m.mc_funcs q).isNone) =
          ps.find? (fun q => (m.mc_funcs q).isNone) := by
        simp [List.find?_cons, hp]
      rw [htw, hfd]
      simp only [runProps_cons, writeAll_cons, hp]
      exact ih _

theorem writeAll_wf (m : SubhaloModel)
    (hmcLen : ∀ p f, m.mc_funcs p = some f → ∀ u : Table, (f u).length = nRows u) :
    ∀ (ps : List String) (g : Table) (n : Nat), WFcols g n → g ≠ [] →
    WFcols (writeAll m ps g) n ∧ writeAll m ps g ≠ [] := by
  intro ps
  induction ps with
  | nil => exact fun g n hwf hne => ⟨hwf, hne⟩
  | cons p ps ih =>
    intro g n hwf hne
    rcases hp : m.mc_funcs p with _ | f
    · rw [writeAll_cons, hp]
      exact ih g n hwf hne
    · rw [writeAll_cons, hp]
      have hlen : (f g).length = n := by
        rw [hmcLen p f hp g, nRows_of_WFcols hwf hne]
      exact ih _ n (WFcols_setCol hwf hlen) (setCol_ne_nil _ _ _)

/-! ### C9: missing Monte Carlo function -/

/-- C9: if a galaxy property appears in `galprop_list` but the model has no
`mc_<galprop>` function, the `populate()` call fails with the
MissingBehaviorError kind (the `AttributeError` raised by
`getattr(self.model, 'mc_'+galprop)`), naming a galprop whose Monte Carlo
function is absent. -/
theorem c9_missing_mc_fails (m : SubhaloModel) (g : Table) (p : String)
    (hp : p ∈ m.galprop_list) (hnone : m.mc_funcs p = none) :
    ∃ q, (populate m g).2 = some (.missingBehavior q) ∧ m.mc_funcs q = none := by
  obtain ⟨q, hq, hqn⟩ := runProps_missing m m.galprop_list g p hp hnone
  rcases hrun : runProps m m.galprop_list g with ⟨g1, oe⟩
  rw [hrun] at hq
  simp only at hq
  subst hq
  rw [populate_eq_of_runProps_err hrun]
  exact ⟨q, rfl, hqn⟩

/-- C9 witness: the theorem applied to a model whose single declared galprop
has no Monte Carlo function. -/
theorem c9_witness :
    ("stellar_mass" ∈ c9Model.galprop_list ∧ c9Model.mc_funcs "stellar_mass" = none) ∧
    (∃ q, (populate c9Model c9Start).2 = some (.missingBehavior q) ∧
      c9Model.mc_funcs q = none) :=
  ⟨⟨by decide, rfl⟩, c9_missing_mc_fails c9Model c9Start "stellar_mass" (by decide) rfl⟩

/-! ### C7: state after a failed populate call -/

/-- C7 counterexample: a failing `populate()` call does not leave the galaxy
table as it was before the call.  With a model whose first galprop has a
Monte Carlo function and whose second does not, the call fails with the
MissingBehaviorError kind, yet the table it leaves behind differs from the
pre-call table: the first galprop's column has already been written. -/
theorem c7_populate_mutates_on_failure :
    (populate c7Model c7Start).2 = some (.missingBehavior "ssfr") ∧
    (populate c7Model c7Start).1 ≠ c7Start := by
  decide

/-- C7 (amended): a failing `populate()` call aborts at the first galprop
lacking a Monte Carlo function and never applies the selection filter, but it
leaves the galaxy table with every earlier galprop column already written:
the resulting table is exactly the property-writing fold over the longest
prefix of `galprop_list` whose Monte Carlo functions all exist. -/
theorem c7_failed_populate_state (m : SubhaloModel) (g : Table) (e : PyErr)
    (h : (populate m g).2 = some e) :
    ∃ p, e = .missingBehavior p ∧
      m.galprop_list.find? (fun q => (m.mc_funcs q).isNone) = some p ∧
      populate m g =
        (writeAll m (m.galprop_list.takeWhile (fun q => (m.mc_funcs q).isSome)) g,
         some (.missingBehavior p)) := by
  rcases hrun : runProps m m.galprop_list g with ⟨g1, oe⟩
  have hchar := runProps_characterize m m.galprop_list g
  rw [hrun] at hchar
  rcases oe with _ | e2
  · exfalso
    rw [populate_eq_of_runProps_ok hrun] at h
    rcases hselopt : m.galaxy_selection_func with _ | sel <;> rw [hselopt] at h <;>
      simp at h
  · rw [populate_eq_of_runProps_err hrun] at h ⊢
    simp only at h
    injection h with h
    subst h
    have h1 : g1 = writeAll m (m.galprop_list.takeWhile (fun q => (m.mc_funcs q).isSome)) g :=
      congrArg Prod.fst hchar
    have h2 : some e2 =
        (m.galprop_list.find? (fun q => (m.mc_funcs q).isNone)).map PyErr.missingBehavior :=
      congrArg Prod.snd hchar
    rcases hfd : m.galprop_list.find? (fun q => (m.mc_funcs q).isNone) with _ | p
    · rw [hfd] at h2
      simp at h2
    · rw [hfd] at h2
      simp at h2
      subst h2
      exact ⟨p, rfl, rfl, by rw [h1]⟩

/-- C7 witness: the amended theorem applied to the failing two-galprop model;
the failing call leaves exactly the first column written. -/
theorem c7_witness :
    (populate c7Model c7Start).2 = some (.missingBehavior "ssfr") ∧
    ∃ p, PyErr.missingBehavior "ssfr" = .missingBehavior p ∧
      c7Model.galprop_list.find? (fun q => (c7Model.mc_funcs q).isNone) = some p ∧
      populate c7Model c7Start =
        (writeAll c7Model
          (c7Model.galprop_list.takeWhile (fun q => (c7Model.mc_funcs q).isSome)) c7Start,
         some (.missingBehavior p)) :=
  ⟨by decide,
   c7_failed_populate_state c7Model c7Start (.missingBehavior "ssfr") (by decide)⟩

/-! ### C5: the selection filter -/

/-- C5: when every declared galprop has its Monte Carlo function, a
`populate()` call with a declared `galaxy_selection_func` first writes every
galprop column in `galprop_list` order and then applies the selection
function exactly once, as a boolean row mask over the fully-populated table —
never interleaved with property computation; the filter only removes rows:
every column of the filtered table (the `galid` column in particular) is a
sublist of the corresponding pre-filter column, of length at most the
pre-filter length. -/
theorem c5_selection_filter (m : SubhaloModel) (g : Table) (sel : Table → List Bool)
    (hsel : m.galaxy_selection_func = some sel)
    (hok : ∀ p ∈ m.galprop_list, (m.mc_funcs p).isSome) :
    populate m g =
      (filterTable (writeAll m m.galprop_list g)
        (sel (writeAll m m.galprop_list g)), none) ∧
    ∀ k v, getCol (writeAll m m.galprop_list g) k = some v →
      getCol (populate m g).1 k =
        some (applyMask (sel (writeAll m m.galprop_list g)) v) ∧
      (applyMask (sel (writeAll m m.galprop_list g)) v).Sublist v ∧
      (applyMask (sel (writeAll m m.galprop_list g)) v).length ≤ v.length := by
  have hrun := runProps_all_some m m.galprop_list g hok
  have hpop : populate m g =
      (filterTable (writeAll m m.galprop_list g)
        (sel (writeAll m m.galprop_list g)), none) := by
    rw [populate_eq_of_runProps_ok hrun, hsel]
  refine ⟨hpop, fun k v hv => ?_⟩
  refine ⟨?_, applyMask_sublist _ _, (applyMask_sublist _ _).length_le⟩
  rw [hpop]
  show getCol (filterTable _ _) k = _
  rw [getCol_filterTable, hv]
  rfl

/-- C5 witness: the theorem applied to a concrete model and table; the
selection mask keeps only the first row of the populated table. -/
theorem c5_witness :
    (∀ p ∈ c5Model.galprop_list, (c5Model.mc_funcs p).isSome) ∧
    populate c5Model c5Start =
      (filterTable (writeAll c5Model c5Model.galprop_list c5Start)
        ((fun g => (List.range (nRows g)).map (fun i => decide (i = 0)))
          (writeAll c5Model c5Model.galprop_list c5Start)), none) :=
  ⟨by decide,
   (c5_selection_filter c5Model c5Start
     (fun g => (List.range (nRows g)).map (fun i => decide (i = 0))) rfl (by decide)).1⟩

/-! ### C8: dispatch argument resolution -/

/-- C8: `retrieve_relevant_haloprops` fails with the ArgumentConflictError
kind when the positional halo-property arrays and the `mock_galaxies` keyword
are both supplied or both absent, and resolves the input arrays when exactly
one of the two is supplied: positional arrays are returned as given, and a
mock yields the nonempty list of sliced haloprop arrays. -/
theorem c8_argument_resolution :
    (∀ (hk : HalopropKeyDict) (gt : String),
      retrieve_relevant_haloprops hk gt [] none = .error .argumentConflict) ∧
    (∀ (hk : HalopropKeyDict) (gt : String) (a : List Int) (rest : List (List Int))
        (mk : MockGalaxies),
      retrieve_relevant_haloprops hk gt (a :: rest) (some mk) =
        .error .argumentConflict) ∧
    (∀ (hk : HalopropKeyDict) (gt : String) (a : List Int) (rest : List (List Int)),
      retrieve_relevant_haloprops hk gt (a :: rest) none = .ok (a :: rest)) ∧
    (∀ (hk : HalopropKeyDict) (gt : String) (mk : MockGalaxies),
      ∃ out, retrieve_relevant_haloprops hk gt [] (some mk) = .ok out ∧ out ≠ []) := by
  refine ⟨fun hk gt => rfl, fun hk gt a rest mk => rfl, fun hk gt a rest => rfl,
    fun hk gt mk => ?_⟩
  rcases hs : hk.sec_haloprop_key with _ | sk
  · refine ⟨[sliceArr (mk.props hk.prim_haloprop_key) (mk.gal_type_indices gt)],
      ?_, by simp⟩
    simp [retrieve_relevant_haloprops, hs]
  · refine ⟨[sliceArr (mk.props hk.prim_haloprop_key) (mk.gal_type_indices gt),
      sliceArr (mk.props sk) (mk.gal_type_indices gt)], ?_, by simp⟩
    simp [retrieve_relevant_haloprops, hs]

/-! ### C10: successive populate calls -/

theorem populate_step_spec (m : SubhaloModel) (g : Table) (n : Nat)
    (hok : ∀ p ∈ m.galprop_list, (m.mc_funcs p).isSome)
    (hmcLen : ∀ p f, m.mc_funcs p = some f → ∀ u : Table, (f u).length = nRows u)
    (hselLen : ∀ s, m.galaxy_selection_func = some s → ∀ u : Table, (s u).length = nRows u)
    (hwf : WFcols g n) (hne : g ≠ []) :
    ∃ n2, n2 ≤ n ∧ WFcols (populate m g).1 n2 ∧ (populate m g).1 ≠ [] ∧
      (populate m g).2 = none ∧
      ∀ k, k ∉ m.galprop_list → ∀ v, getCol g k = some v →
        ∃ v2, getCol (populate m g).1 k = some v2 ∧ v2.Sublist v := by
  have hrun := runProps_all_some m m.galprop_list g hok
  obtain ⟨hwf1, hne1⟩ := writeAll_wf m hmcLen m.galprop_list g n hwf hne
  have hpre : ∀ k, k ∉ m.galprop_list →
      getCol (writeAll m m.galprop_list g) k = getCol g k :=
    fun k hk => getCol_writeAll_notMem m m.galprop_list g k hk
  rcases hselopt : m.galaxy_selection_func with _ | sel
  · have hpop : populate m g = (writeAll m m.galprop_list g, none) := by
      rw [populate_eq_of_runProps_ok hrun, hselopt]
    rw [hpop]
    refine ⟨n, le_refl n, hwf1, hne1, rfl, fun k hk v hv => ?_⟩
    refine ⟨v, ?_, List.Sublist.refl v⟩
    rw [hpre k hk]
    exact hv
  · have hpop : populate m g =
        (filterTable (writeAll m m.galprop_list g)
          (sel (writeAll m m.galprop_list g)), none) := by
      rw [populate_eq_of_runProps_ok hrun, hselopt]
    have hmask : (sel (writeAll m m.galprop_list g)).length = n := by
      rw [hselLen sel hselopt (writeAll m m.galprop_list g), nRows_of_WFcols hwf1 hne1]
    rw [hpop]
    refine ⟨(sel (writeAll m m.galprop_list g)).count true, ?_,
      WFcols_filterTable hwf1 hmask, filterTable_ne_nil _ hne1, rfl,
      fun k hk v hv => ?_⟩
    · rw [← hmask]
      exact List.count_le_length _ _
    · refine ⟨applyMask (sel (writeAll m m.galprop_list g)) v, ?_, applyMask_sublist _ _⟩
      rw [getCol_filterTable, hpre k hk, hv]
      rfl

/-- C10: `populate()` replaces the mock's galaxy table with the masked
subtable, so a second `populate()` call operates on the already-filtered
table: over two successive calls the row count (the common column length) is
non-increasing, and the `galid` column after the second call is a sublist of
the `galid` column after the first, which is itself a sublist of the original
`galid` column — a row removed by an earlier call's mask is never restored. -/
theorem c10_refiltering_monotone (m : SubhaloModel) (g : Table) (n : Nat) (v0 : List Int)
    (hok : ∀ p ∈ m.galprop_list, (m.mc_funcs p).isSome)
    (hmcLen : ∀ p f, m.mc_funcs p = some f → ∀ u : Table, (f u).length = nRows u)
    (hselLen : ∀ s, m.galaxy_selection_func = some s → ∀ u : Table, (s u).length = nRows u)
    (hwf : WFcols g n) (hne : g ≠ [])
    (hgal : "galid" ∉ m.galprop_list) (hv0 : getCol g "galid" = some v0) :
    ∃ n1 n2 v1 v2,
      n1 ≤ n ∧ n2 ≤ n1 ∧
      WFcols (populate m g).1 n1 ∧
      WFcols (populate m (populate m g).1).1 n2 ∧
      getCol (populate m g).1 "galid" = some v1 ∧
      getCol (populate m (populate m g).1).1 "galid" = some v2 ∧
      v1.Sublist v0 ∧ v2.Sublist v1 := by
  obtain ⟨n1, hn1, hwf1, hne1, _, hcols1⟩ :=
    populate_step_spec m g n hok hmcLen hselLen hwf hne
  obtain ⟨v1, hv1, hs1⟩ := hcols1 "galid" hgal v0 hv0
  obtain ⟨n2, hn2, hwf2, hne2, _, hcols2⟩ :=
    populate_step_spec m (populate m g).1 n1 hok hmcLen hselLen hwf1 hne1
  obtain ⟨v2, hv2, hs2⟩ := hcols2 "galid" hgal v1 hv1
  exact ⟨n1, n2, v1, v2, hn1, hn2, hwf1, hwf2, hv1, hv2, hs1, hs2⟩

/-- C10 witness: the theorem applied to a three-row table and a model whose
mask keeps the even rows. -/
theorem c10_witness :
    (WFcols c10Start 3 ∧ "galid" ∉ c10Model.galprop_list) ∧
    (∃ n1 n2 v1 v2,
      n1 ≤ 3 ∧ n2 ≤ n1 ∧
      WFcols (populate c10Model c10Start).1 n1 ∧
      WFcols (populate c10Model (populate c10Model c10Start).1).1 n2 ∧
      getCol (populate c10Model c10Start).1 "galid" = some v1 ∧
      getCol (populate c10Model (populate c10Model c10Start).1).1 "galid" = some v2 ∧
      v1.Sublist [0, 1, 2] ∧ v2.Sublist v1) :=
  ⟨⟨by decide, by decide⟩,
   c10_refiltering_monotone c10Model c10Start 3 [0, 1, 2] (by decide)
     (by
       intro p f hpf u
       by_cases hp : p = "stellar_mass"
       · subst hp
         simp [c10Model] at hpf
         subst hpf
         simp
       · simp [c10Model, hp] at hpf)
     (by
       intro s hs u
       simp [c10Model] at hs
       subst hs
       simp)
     (by decide) (by decide) (by decide) rfl⟩

/-! ### C6: repeated population -/

/-- C6 counterexample: `populate()` twice is not the same as `populate()`
once.  With a deterministic model whose selection mask always drops the last
row, the second call re-filters the already-filtered table, so the (entirely
stochastic-free) `galid` column differs between one call and two calls. -/
theorem c6_populate_not_idempotent :
    getCol (populate c6Model (populate c6Model c6Start).1).1 "galid" ≠
      getCol (populate c6Model c6Start).1 "galid" := by
  decide

theorem writeAll_getCol_stable (m : SubhaloModel) (G : List String) (t : Table)
    (hf : ∀ p ∈ G, ∀ f, m.mc_funcs p = some f →
      ∀ t1 t2 : Table, (∀ c, c ∉ G → getCol t1 c = getCol t2 c) → f t1 = f t2) :
    ∀ (ps : List String) (t2 : Table), ps.Nodup → (∀ p ∈ ps, p ∈ G) →
    (∀ c, c ∉ G → getCol t2 c = getCol t c) →
    ∀ p ∈ ps, ∀ f, m.mc_funcs p = some f →
    getCol (writeAll m ps t2) p = some (f t) := by
  intro ps
  induction ps with
  | nil => intro t2 _ _ _ p hp; cases hp
  | cons q qs ih =>
    intro t2 hnd hsub hag p hp f hpf
    have hqG : q ∈ G := hsub q (List.mem_cons_self _ _)
    rcases hq : m.mc_funcs q with _ | fq
    · rw [writeAll_cons, hq]
      rcases List.mem_cons.1 hp with rfl | hps
      · rw [hpf] at hq; cases hq
      · exact ih t2 (List.nodup_cons.1 hnd).2 (fun r hr => hsub r (List.mem_cons_of_mem _ hr))
          hag p hps f hpf
    · rw [writeAll_cons, hq]
      have hfq : fq t2 = fq t := hf q hqG fq hq t2 t hag
      have hag2 : ∀ c, c ∉ G → getCol (setCol t2 q (fq t2)) c = getCol t c := by
        intro c hc
        have hcq : c ≠ q := fun h => hc (h ▸ hqG)
        rw [getCol_setCol_ne _ _ hcq]
        exact hag c hc
      rcases List.mem_cons.1 hp with rfl | hps
      · have hqqs : p ∉ qs := (List.nodup_cons.1 hnd).1
        rw [getCol_writeAll_notMem m qs _ p hqqs, getCol_setCol_self]
        rw [hpf] at hq
        injection hq with hq
        rw [hq, hfq]
      · exact ih (setCol t2 q (fq t2)) (List.nodup_cons.1 hnd).2
          (fun r hr => hsub r (List.mem_cons_of_mem _ hr)) hag2 p hps f hpf

/-- C6 (amended): `populate()` twice equals `populate()` once, column for
column, provided the model declares no `galaxy_selection_func` (the masked
subtable otherwise replaces the galaxy table and is re-filtered by the second
call) and every Monte Carlo function is deterministic and reads only columns
that `populate` does not overwrite (columns outside `galprop_list`). -/
theorem c6_populate_idempotent_amended (m : SubhaloModel) (g : Table)
    (hsel : m.galaxy_selection_func = none)
    (hok : ∀ p ∈ m.galprop_list, (m.mc_funcs p).isSome)
    (hnd : m.galprop_list.Nodup)
    (hf : ∀ p ∈ m.galprop_list, ∀ f, m.mc_funcs p = some f →
      ∀ t1 t2 : Table, (∀ c, c ∉ m.galprop_list → getCol t1 c = getCol t2 c) → f t1 = f t2) :
    (populate m g).2 = none ∧ (populate m (populate m g).1).2 = none ∧
    ∀ k, getCol (populate m (populate m g).1).1 k = getCol (populate m g).1 k := by
  have hpop : ∀ u : Table, populate m u = (writeAll m m.galprop_list u, none) := by
    intro u
    rw [populate_eq_of_runProps_ok (runProps_all_some m m.galprop_list u hok), hsel]
  rw [hpop g, hpop (writeAll m m.galprop_list g, none).1]
  refine ⟨rfl, rfl, fun k => ?_⟩
  show getCol (writeAll m m.galprop_list (writeAll m m.galprop_list g)) k =
    getCol (writeAll m m.galprop_list g) k
  by_cases hk : k ∈ m.galprop_list
  · obtain ⟨f, hfk⟩ := Option.isSome_iff_exists.1 (hok k hk)
    have hag1 : ∀ c, c ∉ m.galprop_list →
        getCol (writeAll m m.galprop_list g) c = getCol g c :=
      fun c hc => getCol_writeAll_notMem m m.galprop_list g c hc
    rw [writeAll_getCol_stable m m.galprop_list g hf m.galprop_list
        (writeAll m m.galprop_list g) hnd (fun p hp => hp) hag1 k hk f hfk,
      writeAll_getCol_stable m m.galprop_list g hf m.galprop_list g hnd
        (fun p hp => hp) (fun c _ => rfl) k hk f hfk]
  · rw [getCol_writeAll_notMem m m.galprop_list _ k hk]

/-- C6 witness: the amended theorem applied to a model with no selection
function whose Monte Carlo function reads only the inherited halo column. -/
theorem c6_witness :
    c6aModel.galaxy_selection_func = none ∧
    ((populate c6aModel c6aStart).2 = none ∧
     (populate c6aModel (populate c6aModel c6aStart).1).2 = none ∧
     ∀ k, getCol (populate c6aModel (populate c6aModel c6aStart).1).1 k =
       getCol (populate c6aModel c6aStart).1 k) :=
  ⟨rfl,
   c6_populate_idempotent_amended c6aModel c6aStart rfl (by decide) (by decide)
     (by
       intro p hp f hpf t1 t2 hag
       have hp2 : p = "stellar_mass" := by simpa [c6aModel] using hp
       subst hp2
       simp [c6aModel] at hpf
       subst hpf
       show (match getCol t1 "halo_mvir" with | some v => v | none => []) =
         (match getCol t2 "halo_mvir" with | some v => v | none => [])
       rw [hag "halo_mvir" (by decide)])⟩

/-! ### C4: the precomputed galaxy table -/

theorem copyCols_cons (halo : Table) (k0 : String) (ks : List String) (g : Table) :
    copyCols halo (k0 :: ks) g =
      match getCol halo k0 with
      | none => .error (.keyErrorMsg k0)
      | some v => copyCols halo ks (setCol g k0 v) := rfl

theorem copyPhase_cons (k0 : String) (ks : List String) (g : Table) :
    copyPhase (k0 :: ks) g =
      match getCol g (hostHalopropPfx ++ k0) with
      | none => .error (.keyErrorMsg (hostHalopropPfx ++ k0))
      | some v => copyPhase ks (setCol g k0 v) := rfl

theorem galTypeLoop_cons (m : SubhaloModel) (p : String) (ps : List String) (g : Table) :
    galTypeLoop m (p :: ps) g =
      match m.gal_type_funcs p with
      | none => galTypeLoop m ps g
      | some f => galTypeLoop m ps (setCol g (p ++ "_gal_type") (f g)) := rfl

theorem galType_key_ne (p k : String) (hk : k.length < 9) : p ++ "_gal_type" ≠ k := by
  intro h
  have hlen := congrArg String.length h
  rw [String.length_append] at hlen
  have h9 : ("_gal_type" : String).length = 9 := rfl
  omega

theorem copyCols_spec (halo : Table) :
    ∀ (ks : List String) (g : Table),
    (∀ k ∈ ks, (getCol halo k).isSome) →
    ∃ g2, copyCols halo ks g = .ok g2 ∧
      (∀ k, getCol g2 k = if k ∈ ks then getCol halo k else getCol g k) ∧
      (∀ n, WFcols halo n → WFcols g n → WFcols g2 n) ∧
      (ks ≠ [] ∨ g ≠ [] → g2 ≠ []) := by
  intro ks
  induction ks with
  | nil =>
    intro g _
    refine ⟨g, rfl, fun k => by simp, fun n _ h => h, fun h => ?_⟩
    rcases h with h | h
    · exact absurd rfl h
    · exact h
  | cons k0 ks ih =>
    intro g hks
    obtain ⟨v0, hv0⟩ := Option.isSome_iff_exists.1 (hks k0 (List.mem_cons_self _ _))
    obtain ⟨g2, hok, hget, hwf, hne⟩ :=
      ih (setCol g k0 v0) (fun k hk => hks k (List.mem_cons_of_mem _ hk))
    refine ⟨g2, ?_, ?_, ?_, ?_⟩
    · rw [copyCols_cons, hv0]
      exact hok
    · intro k
      rw [hget k]
      by_cases hkks : k ∈ ks
      · simp [hkks]
      · by_cases hkk0 : k = k0
        · subst hkk0
          simp [hkks, getCol_setCol_self, hv0]
        · simp [hkks, hkk0, getCol_setCol_ne g v0 hkk0]
    · intro n hhalo hg
      exact hwf n hhalo (WFcols_setCol hg (hhalo _ (getCol_mem hv0)))
    · intro _
      exact hne (Or.inr (setCol_ne_nil g k0 v0))

theorem copyPhase_spec :
    ∀ (ks : List String) (g : Table),
    (∀ k ∈ ks, (getCol g (hostHalopropPfx ++ k)).isSome) →
    (∀ k1 ∈ ks, ∀ k2 ∈ ks, hostHalopropPfx ++ k1 ≠ k2) →
    ks.Nodup →
    ∃ g2, copyPhase ks g = .ok g2 ∧
      (∀ k ∈ ks, getCol g2 k = getCol g (hostHalopropPfx ++ k)) ∧
      (∀ k, k ∉ ks → getCol g2 k = getCol g k) ∧
      (∀ n, WFcols g n → WFcols g2 n) ∧
      (g ≠ [] → g2 ≠ []) := by
  intro ks
  induction ks with
  | nil =>
    intro g _ _ _
    exact ⟨g, rfl, fun k hk => absurd hk (List.not_mem_nil k), fun k _ => rfl,
      fun n h => h, fun h => h⟩
  | cons k0 ks ih =>
    intro g hsome hne hnd
    obtain ⟨v0, hv0⟩ := Option.isSome_iff_exists.1 (hsome k0 (List.mem_cons_self _ _))
    have hpfxne : ∀ k ∈ ks, hostHalopropPfx ++ k ≠ k0 := fun k hk =>
      hne k (List.mem_cons_of_mem _ hk) k0 (List.mem_cons_self _ _)
    have hsome2 : ∀ k ∈ ks, (getCol (setCol g k0 v0) (hostHalopropPfx ++ k)).isSome := by
      intro k hk
      rw [getCol_setCol_ne _ _ (hpfxne k hk)]
      exact hsome k (List.mem_cons_of_mem _ hk)
    obtain ⟨g2, hok, hmem, hnotmem, hwf, hnonempty⟩ :=
      ih (setCol g k0 v0) hsome2
        (fun k1 hk1 k2 hk2 =>
          hne k1 (List.mem_cons_of_mem _ hk1) k2 (List.mem_cons_of_mem _ hk2))
        (List.nodup_cons.1 hnd).2
    refine ⟨g2, ?_, ?_, ?_, ?_, ?_⟩
    · rw [copyPhase_cons, hv0]
      exact hok
    · intro k hk
      rcases List.mem_cons.1 hk with rfl | hkks
      · have hk0ks : k ∉ ks := (List.nodup_cons.1 hnd).1
        rw [hnotmem k hk0ks, getCol_setCol_self, hv0]
      · rw [hmem k hkks, getCol_setCol_ne _ _ (hpfxne k hkks)]
    · intro k hk
      have hkk0 : k ≠ k0 := fun h => hk (h ▸ List.mem_cons_self _ _)
      have hkks : k ∉ ks := fun h => hk (List.mem_cons_of_mem _ h)
      rw [hnotmem k hkks, getCol_setCol_ne _ _ hkk0]
    · intro n hg
      exact hwf n (WFcols_setCol hg (hg _ (getCol_mem hv0)))
    · intro _
      exact hnonempty (setCol_ne_nil g k0 v0)

theorem galTypeLoop_spec (m : SubhaloModel)
    (hgt : ∀ p f, m.gal_type_funcs p = some f → ∀ u : Table, (f u).length = nRows u) :
    ∀ (ps : List String) (g : Table) (n : Nat), WFcols g n → g ≠ [] →
    WFcols (galTypeLoop m ps g) n ∧ galTypeLoop m ps g ≠ [] ∧
    ∀ k : String, k.length < 9 → getCol (galTypeLoop m ps g) k = getCol g k := by
  intro ps
  induction ps with
  | nil => exact fun g n hwf hne => ⟨hwf, hne, fun k _ => rfl⟩
  | cons p ps ih =>
    intro g n hwf hne
    rcases hp : m.gal_type_funcs p with _ | f
    · rw [galTypeLoop_cons, hp]
      exact ih g n hwf hne
    · rw [galTypeLoop_cons, hp]
      have hlen : (f g).length = n := by
        rw [hgt p f hp g, nRows_of_WFcols hwf hne]
      obtain ⟨hwf2, hne2, hpres⟩ :=
        ih (setCol g (p ++ "_gal_type") (f g)) n (WFcols_setCol hwf hlen)
          (setCol_ne_nil _ _ _)
      refine ⟨hwf2, hne2, fun k hk => ?_⟩
      rw [hpres k hk, getCol_setCol_ne _ _ (Ne.symm (galType_key_ne p k hk))]

/-- C4: `precompute_galprops` builds a galaxy table with exactly one row per
input halo-table row (every column of the result has the halo table's common
column length), with each of the six phase-space columns equal to the
corresponding host-halo-prefixed halo column, and with `galid` equal to the
dense 0-based sequential index `0..N-1`. -/
theorem c4_precompute_galprops (m : SubhaloModel) (halo : Table)
    (additional : List String) (n : Nat)
    (hwf : WFcols halo n)
    (hmem : ∀ k ∈ additional, (getCol halo k).isSome)
    (hphase : ∀ k ∈ phaseSpaceKeys, (hostHalopropPfx ++ k) ∈ additional)
    (hgt : ∀ p f, m.gal_type_funcs p = some f → ∀ u : Table, (f u).length = nRows u) :
    ∃ g, precompute_galprops m additional halo = .ok g ∧
      WFcols g n ∧ g ≠ [] ∧
      (∀ k ∈ phaseSpaceKeys, getCol g k = getCol halo (hostHalopropPfx ++ k)) ∧
      getCol g "galid" = some ((List.range n).map Int.ofNat) := by
  obtain ⟨g1, h1ok, h1get, h1wf, h1ne⟩ := copyCols_spec halo additional [] hmem
  have haddne : additional ≠ [] := List.ne_nil_of_mem (hphase "x" (by decide))
  have hg1ne : g1 ≠ [] := h1ne (Or.inl haddne)
  have hg1wf : WFcols g1 n := h1wf n hwf (by intro c hc; cases hc)
  have hg1phase : ∀ k ∈ phaseSpaceKeys,
      getCol g1 (hostHalopropPfx ++ k) = getCol halo (hostHalopropPfx ++ k) := by
    intro k hk
    rw [h1get]
    simp [hphase k hk]
  obtain ⟨g2, h2ok, h2mem, h2notmem, h2wf, h2ne⟩ :=
    copyPhase_spec phaseSpaceKeys g1
      (by
        intro k hk
        rw [hg1phase k hk]
        exact hmem _ (hphase k hk))
      (by decide) (by decide)
  have hg2wf : WFcols g2 n := h2wf n hg1wf
  have hg2ne : g2 ≠ [] := h2ne hg1ne
  have hn2 : nRows g2 = n := nRows_of_WFcols hg2wf hg2ne
  have hg3wf : WFcols (setCol g2 "galid" ((List.range (nRows g2)).map Int.ofNat)) n :=
    WFcols_setCol hg2wf (by simp [hn2])
  have hg3ne : setCol g2 "galid" ((List.range (nRows g2)).map Int.ofNat) ≠ [] :=
    setCol_ne_nil _ _ _
  obtain ⟨hfwf, hfne, hfpres⟩ :=
    galTypeLoop_spec m hgt m.galprop_list
      (setCol g2 "galid" ((List.range (nRows g2)).map Int.ofNat)) n hg3wf hg3ne
  have hk9 : ∀ k ∈ phaseSpaceKeys, k.length < 9 := by decide
  have hkgalid : ∀ k ∈ phaseSpaceKeys, k ≠ "galid" := by decide
  refine ⟨galTypeLoop m m.galprop_list
      (setCol g2 "galid" ((List.range (nRows g2)).map Int.ofNat)), ?_, hfwf, hfne, ?_, ?_⟩
  · simp only [precompute_galprops, h1ok, h2ok]
  · intro k hk
    rw [hfpres k (hk9 k hk), getCol_setCol_ne _ _ (hkgalid k hk), h2mem k hk]
    exact hg1phase k hk
  · rw [hfpres "galid" (by decide), getCol_setCol_self]
    rw [hn2]

/-- C4 witness: the theorem applied to a concrete two-row halo table; the
resulting galaxy table exists, has two rows throughout, carries the six
phase-space columns copied from the `halo_`-prefixed columns, and a dense
`galid` column. -/
theorem c4_witness :
    (WFcols c4Halo 2 ∧ ∀ k ∈ c4Additional, (getCol c4Halo k).isSome) ∧
    (∃ g, precompute_galprops c4Model c4Additional c4Halo = .ok g ∧
      WFcols g 2 ∧ g ≠ [] ∧
      (∀ k ∈ phaseSpaceKeys, getCol g k = getCol c4Halo (hostHalopropPfx ++ k)) ∧
      getCol g "galid" = some ((List.range 2).map Int.ofNat)) :=
  ⟨⟨by decide, by decide⟩,
   c4_precompute_galprops c4Model c4Halo c4Additional 2 (by decide) (by decide)
     (by decide) (fun p f h => nomatch h)⟩
